import Mathlib

/-
Verification development for the KG-Blog knowledge-graph web application.

Shallow embedding of:
  * `extract_path_from_nodes` (app.py, lines 235-308): the grounded Q&A
    path-finder.  The Neo4j store is modelled as an oracle (`StoreOracle`)
    giving the outcome of each query the function issues: the connectivity
    probe (`verify_connection`), the per-pair shortest-path query (Tier 1)
    and the neighbourhood query (Tier 2).  A query outcome is
    `Except Unit _`: `Except.error` models a driver exception, `Except.ok`
    a normal reply (`none` = no record).  The embedding also counts the
    number of store queries issued, returning it as the second component.
  * the relationship-type sanitization inline in
    `Neo4jLoader.upload_graph` (database_loader.py, lines 43-49).
  * the persistence-is-best-effort part of the `/extract` endpoint
    (app.py, lines 94-133).
  * the chat graph-context serializer (app.py, lines 201-212).
  * the Cypher semantics of the Tier-2 neighbourhood query (app.py,
    lines 290-295) over a concrete store graph (`StoreGraph`).
-/

set_option maxHeartbeats 1000000

namespace KGBlog

/-! ## Data model

`current_graph_context` in app.py is a dict `{"nodes": [...], "edges": [...]}`
whose nodes are dicts with keys `id`, `label`, `properties` and whose edges
are dicts with keys `source_id`, `target_id`, `relationship_type` (this shape
is established by both writers of the global, `/extract` lines 103-120 and
`/graph` lines 147-175).  Property values are modelled as strings; only
their serialized text matters here.  A Python dict preserves insertion
order, so `properties` is a list of key-value pairs. -/

structure CtxNode where
  id : String
  label : String
  properties : List (String × String)
deriving DecidableEq, Repr

structure CtxEdge where
  source_id : String
  target_id : String
  relationship_type : String
deriving DecidableEq, Repr

structure GraphContext where
  nodes : List CtxNode
  edges : List CtxEdge
deriving DecidableEq, Repr

/-- One record of the Tier-1 shortest-path query: the `node_ids` and
`rel_types` columns (app.py lines 269-270). -/
structure PathRec where
  nodes : List String
  relationships : List String
deriving DecidableEq, Repr

/-- The value `extract_path_from_nodes` returns when not `None`:
either `{"nodes": [...]}` or `{"nodes": [...], "relationships": [...]}`. -/
inductive PathResult where
  | nodesOnly (nodes : List String)
  | withRels (nodes relationships : List String)
deriving DecidableEq, Repr

/-- Oracle for the store interactions of `extract_path_from_nodes`.
`verifyConnection` models `loader.verify_connection()` (which catches its
own exceptions and returns a Bool, database_loader.py lines 63-71).
`shortestPathQ a b` models the Tier-1 query for the pair `(a, b)`;
`neighborsQ anchor candidates` models the Tier-2 query.
`Except.error ()` is a driver exception escaping `session.run`/`single`;
`Except.ok none` is "no record returned". -/
structure StoreOracle where
  verifyConnection : Bool
  shortestPathQ : String → String → Except Unit (Option PathRec)
  neighborsQ : String → List String → Except Unit (Option (List String))

/-- The pair order of the Tier-1 double loop
`for i in range(n): for j in range(i+1, n)` (app.py lines 263-264). -/
def orderedPairs {α : Type} : List α → List (α × α)
  | [] => []
  | x :: xs => (xs.map (fun y => (x, y))) ++ orderedPairs xs

/-- The Tier-1 loop (app.py lines 260-279): run the shortest-path query on
every pair in order, appending each found, non-empty path to `paths_found`
(`if record and record["node_ids"]`).  An exception aborts the loop and
propagates (to the `except` handler of the caller).  The second component
counts queries issued (a query that raises is still counted as issued). -/
def runTier1 (o : StoreOracle) : List (String × String) → Except Unit (List PathRec) × Nat
  | [] => (Except.ok [], 0)
  | (a, b) :: rest =>
    match o.shortestPathQ a b with
    | Except.error e => (Except.error e, 1)
    | Except.ok found =>
      match runTier1 o rest with
      | (Except.error e, n) => (Except.error e, n + 1)
      | (Except.ok ps, n) =>
        (Except.ok (match found with
          | some p => if p.nodes.isEmpty then ps else p :: ps
          | none => ps), n + 1)

/-- Stable insertion of `p` into a list sorted by descending node count:
`p` goes after exactly those elements with strictly more nodes.  Used to
realize Python's stable `paths_found.sort(key=lambda x: len(x["nodes"]),
reverse=True)` (app.py line 284): a stable sort by a key is the unique
permutation that is non-increasing in the key and preserves the original
relative order of elements with equal keys. -/
def insertDesc (p : PathRec) : List PathRec → List PathRec
  | [] => [p]
  | q :: qs =>
    if p.nodes.length < q.nodes.length then q :: insertDesc p qs
    else p :: q :: qs

/-- Stable sort by descending node count (Python `list.sort` with
`key=lambda x: len(x["nodes"])` and `reverse=True`; Python's sort is
documented stable). -/
def sortDesc : List PathRec → List PathRec
  | [] => []
  | p :: ps => insertDesc p (sortDesc ps)

/-- The earliest element of maximal node count, i.e. what a stable
descending sort brings to the front. -/
def firstMax : List PathRec → Option PathRec
  | [] => none
  | p :: ps =>
    match firstMax ps with
    | none => some p
    | some q => if p.nodes.length < q.nodes.length then some q else some p

/-- The `try` block of `extract_path_from_nodes` (app.py lines 250-308) as
reached with at least two valid ids `v0 :: v1 :: vs`: connectivity probe,
Tier-1 pairwise shortest paths, Tier-2 neighbourhood query, bounded
fallback.  The `Neo4jLoader(...)` construction at line 251 is lazy (no
network I/O) and modelled as never raising.  The source's
`len(valid_node_ids) >= 2` guard before Tier 2 is kept although it is
always true on this branch. -/
def pathSearch (o : StoreOracle) (v0 v1 : String) (vs : List String) :
    Option PathResult × Nat :=
  let valid := v0 :: v1 :: vs
  if !o.verifyConnection then
    (some (PathResult.nodesOnly (valid.take 5)), 1)
  else
    match runTier1 o (orderedPairs valid) with
    | (Except.error _, n) =>
      -- exception during Tier 1: caught at line 304, fall to line 308
      (some (PathResult.nodesOnly (valid.take 5)), n + 1)
    | (Except.ok paths_found, n) =>
      if !paths_found.isEmpty then
        match sortDesc paths_found with
        | p :: _ => (some (PathResult.withRels p.nodes p.relationships), n + 1)
        | [] => (some (PathResult.nodesOnly (valid.take 5)), n + 1)
      else if valid.length ≥ 2 then
        match o.neighborsQ v0 (v1 :: vs) with
        | Except.error _ =>
          -- exception during Tier 2: caught at line 304, fall to line 308
          (some (PathResult.nodesOnly (valid.take 5)), n + 2)
        | Except.ok recordOpt =>
          match recordOpt with
          | some ids =>
            if ids.isEmpty then (some (PathResult.nodesOnly (valid.take 5)), n + 2)
            else (some (PathResult.nodesOnly ids), n + 2)
          | none => (some (PathResult.nodesOnly (valid.take 5)), n + 2)
      else (some (PathResult.nodesOnly (valid.take 5)), n + 1)

/-- Shallow embedding of `extract_path_from_nodes` (app.py lines 235-308).
Result: the returned value (`none` = Python `None`) paired with the number
of store queries issued.  Note on line 237: `current_graph_context` always
carries both keys, so the representable falsy cases of `if not
graph_context or not graph_context.get('nodes') or not node_ids` are an
empty node list or an empty id list. -/
def extract_path_from_nodes (o : StoreOracle) (node_ids : List String)
    (graph_context : GraphContext) : Option PathResult × Nat :=
  if graph_context.nodes.isEmpty || node_ids.isEmpty then (none, 0)
  else
    match node_ids.filter
      (fun nid => graph_context.nodes.any (fun n => n.id == nid)) with
    | [] => (none, 0)
    | [nid] => (some (PathResult.nodesOnly [nid]), 0)
    | v0 :: v1 :: vs => pathSearch o v0 v1 vs

/-! ## Cypher semantics of the Tier-2 neighbourhood query

The query (app.py lines 290-295) is
```text
MATCH (start:Entity \x7bid: $start_id\x7d)-[r*..2]-(connected:Entity)
WHERE connected.id IN $node_ids
WITH collect(DISTINCT connected.id) + [$start_id] as all_nodes
RETURN all_nodes[0..10] as node_ids
```
The variable-length pattern `-[r*..2]-` matches undirected trails of length
1 or 2 (relationship instances on a trail are pairwise distinct); the match
rows bind `connected` to candidate nodes so reachable.  `collect(DISTINCT
...)` aggregates the rows in store-returned order keeping the first
occurrence of each id; aggregation with no grouping key produces exactly
one row even over zero match rows, so the record always exists and always
contains the anchor appended at the end; `[0..10]` keeps the first 10. -/

structure StoreEdge where
  src : String
  tgt : String
  typ : String
deriving DecidableEq, Repr

structure StoreGraph where
  nodeIds : List String
  edges : List StoreEdge
deriving DecidableEq, Repr

/-- `e` connects `a` and `b` (undirected). -/
def edgeTouches (e : StoreEdge) (a b : String) : Bool :=
  (e.src == a && e.tgt == b) || (e.src == b && e.tgt == a)

def undirAdj (g : StoreGraph) (a b : String) : Bool :=
  g.edges.any (fun e => edgeTouches e a b)

/-- The endpoint reached by traversing `e` undirected from `a`. -/
def otherEnd (e : StoreEdge) (a : String) : Option String :=
  if e.src == a then some e.tgt else if e.tgt == a then some e.src else none

/-- `c` is reachable from `a` along an undirected trail of length 1 or 2
(the two relationships of a length-2 trail must be distinct edge
instances, hence the index comparison). -/
def reach12 (g : StoreGraph) (a c : String) : Bool :=
  undirAdj g a c ||
  (g.edges.enum.any (fun ie1 =>
    match otherEnd ie1.2 a with
    | none => false
    | some m => g.edges.enum.any (fun ie2 => ie1.1 != ie2.1 && edgeTouches ie2.2 m c)))

/-- `collect(DISTINCT ...)`: first occurrences, in row order. -/
def distinctAux : List String → List String → List String
  | [], _ => []
  | x :: xs, seen =>
    if x ∈ seen then distinctAux xs seen else x :: distinctAux xs (x :: seen)

def distinctKeepFirst (l : List String) : List String := distinctAux l []

/-- The `node_ids` column of the sole record of the Tier-2 query, given the
`connected.id` of each match row in store-returned order. -/
def cypherNeighbors (rows : List String) (anchor : String) : List String :=
  (distinctKeepFirst rows ++ [anchor]).take 10

/-- The match rows of the Tier-2 query are characterized by: a row value is
exactly a candidate id reachable from the anchor within 1-2 undirected
hops.  (Bounded form, decidable on concrete inputs.) -/
def Tier2Rows (g : StoreGraph) (anchor : String) (cands rows : List String) : Prop :=
  (∀ c ∈ rows, c ∈ cands ∧ reach12 g anchor c = true) ∧
  (∀ c ∈ cands, reach12 g anchor c = true → c ∈ rows)

/-! ## Relationship-type sanitization (database_loader.py lines 43-49)

```text
rel_type = re.sub(r'[^A-Za-z0-9_]', '_', edge.relationship_type.upper())
rel_type = re.sub(r'_+', '_', rel_type).strip('_')
if not rel_type:
    rel_type = "RELATED_TO"
```
Python's `str.upper` applies the Unicode full-uppercase mapping to each
character and concatenates the results; a character may map to several
(U+00DF to "SS", U+FB01 to "FI") and may map into ASCII from outside it
(U+017F to "S", U+0131 to "I").  The mapping table is external data (the
Unicode character database), so the embedding is parametrized by a table
`u : Char → List Char` giving each character's full uppercase mapping,
and the theorems hypothesize exactly the two facts of the real table
that lines 45-49 rely on (`IsUpperMap`): characters of `[A-Z0-9_]` are
fixed by uppercasing, and no character's uppercase mapping contains an
ASCII lowercase letter.  `upperMapDemo` is a concrete table for the
witnesses; it agrees with Python's `str.upper` on all of ASCII and on
U+00DF, U+017F, U+0131. -/

def isLowerAlpha (c : Char) : Bool := 97 ≤ c.toNat && c.toNat ≤ 122

def isUpperAlpha (c : Char) : Bool := 65 ≤ c.toNat && c.toNat ≤ 90

def isDigitChar (c : Char) : Bool := 48 ≤ c.toNat && c.toNat ≤ 57

/-- Membership in the regex class `[A-Za-z0-9_]`. -/
def isWordChar (c : Char) : Bool :=
  isUpperAlpha c || isLowerAlpha c || isDigitChar c || c == '_'

/-- Membership in `[A-Z0-9_]` (the class of the spec's output regex). -/
def isSafeUpper (c : Char) : Bool :=
  isUpperAlpha c || isDigitChar c || c == '_'

/-- `s.upper()`: concatenation of the per-character Unicode
full-uppercase mapping `u` over the characters of `s`. -/
def pyUpper (u : Char → List Char) (l : List Char) : List Char := l.flatMap u

/-- The facts of the Unicode full-uppercase table that the sanitization
path relies on: `A`-`Z`, `0`-`9` and `_` are fixed by uppercasing, and no
character's uppercase mapping contains an ASCII lowercase letter (full
uppercase mappings consist of uppercase and uncased characters only). -/
structure IsUpperMap (u : Char → List Char) : Prop where
  fixes_safe : ∀ c, isSafeUpper c = true → u c = [c]
  no_lower : ∀ c d, d ∈ u c → isLowerAlpha d = false

/-- Concrete uppercase table for the witnesses: ASCII lowercase letters
map to their ASCII uppercase forms, U+00DF, U+017F and U+0131 get their
real full mappings "SS", "S" and "I", everything else is fixed.  It
agrees with Python's `str.upper` on every ASCII character and on those
three code points. -/
def upperMapDemo (c : Char) : List Char :=
  if isLowerAlpha c then [Char.ofNat (c.toNat - 32)]
  else if c = 'ß' then ['S', 'S']
  else if c = 'ſ' then ['S']
  else if c = 'ı' then ['I']
  else [c]

/-- `re.sub(r'[^A-Za-z0-9_]', '_', ...)`, character-wise. -/
def substituteNonWord (c : Char) : Char := if isWordChar c then c else '_'

/-- `re.sub(r'_+', '_', ...)`: each maximal run of underscores becomes a
single underscore; equivalently, drop every underscore that is immediately
followed by another. -/
def collapseUnderscores : List Char → List Char
  | [] => []
  | [c] => [c]
  | c1 :: c2 :: rest =>
    if c1 == '_' && c2 == '_' then collapseUnderscores (c2 :: rest)
    else c1 :: collapseUnderscores (c2 :: rest)

/-- Python `.strip('_')`: remove leading and trailing underscores. -/
def stripUnderscores (l : List Char) : List Char :=
  ((l.dropWhile (fun c => c == '_')).reverse.dropWhile (fun c => c == '_')).reverse

/-- Adjacent-pair relation expressing "no doubled underscore": a list has
no two consecutive underscores iff it is a chain for this relation. -/
def noDouble (a b : Char) : Prop := ¬(a = '_' ∧ b = '_')

instance (a b : Char) : Decidable (noDouble a b) :=
  inferInstanceAs (Decidable (¬(a = '_' ∧ b = '_')))

/-- Computable form of "no two consecutive underscores". -/
def noDoubledList : List Char → Bool
  | c1 :: c2 :: rest => (!(c1 == '_' && c2 == '_')) && noDoubledList (c2 :: rest)
  | _ => true

/-- The pure transform of lines 45-47 (before the empty-string default),
for the uppercase table `u`: uppercase the whole string, substitute every
character outside `[A-Za-z0-9_]`, collapse underscore runs, strip. -/
def sanitizeCore (u : Char → List Char) (s : String) : String :=
  String.mk (stripUnderscores (collapseUnderscores
    ((pyUpper u s.data).map substituteNonWord)))

/-- Lines 45-49 including the `RELATED_TO` default. -/
def sanitizeRelType (u : Char → List Char) (s : String) : String :=
  if sanitizeCore u s = "" then "RELATED_TO" else sanitizeCore u s

/-! ## `/extract` endpoint: best-effort persistence (app.py lines 94-133)

After the text content is assembled, the endpoint calls the LLM extraction
(fatal on failure, line 99), builds `graph_response`, then attempts to
persist to Neo4j inside a `try` whose `except` only prints (lines 124-130),
and finally returns `graph_response`. -/

structure ExtractOracle where
  /-- Outcome of `await b.ExtractGraph(content)`, already shaped into the
  response dict built at lines 103-120; `Except.error` carries the message
  of the raised exception. -/
  llmResult : Except String GraphContext
  /-- Outcome of `Neo4jLoader(...)` construction. -/
  loaderInit : Except Unit Unit
  /-- Result of `loader.verify_connection()` (a Bool; it catches its own
  exceptions). -/
  connectionOk : Bool
  /-- Outcome of `loader.upload_graph(graph_data)`. -/
  uploadResult : Except Unit Unit

/-- The body of the `try` at lines 124-128. -/
def persistAttempt (o : ExtractOracle) : Except Unit Unit :=
  match o.loaderInit with
  | Except.error e => Except.error e
  | Except.ok _ => if o.connectionOk then o.uploadResult else Except.ok ()

/-- The tail of the `/extract` endpoint from the LLM call on (lines
94-133): LLM failure raises HTTP 500 (modelled as `Except.error`); the
persistence attempt's exception is swallowed (lines 129-130) and the
extracted graph response is returned either way. -/
def extractEndpoint (o : ExtractOracle) : Except String GraphContext :=
  match o.llmResult with
  | Except.error e => Except.error ("Extraction failed: " ++ e)
  | Except.ok graph =>
    match persistAttempt o with
    | Except.ok _ => Except.ok graph
    | Except.error _ => Except.ok graph

/-! ## Chat graph-context serialization (app.py lines 201-212) -/

/-- Line 202: the header reports the counts of the whole context. -/
def headerLine (numNodes numEdges : Nat) : String :=
  "Graph has " ++ toString numNodes ++ " nodes and " ++ toString numEdges ++
    " edges.\n\n"

/-- Lines 205-208: one node entry; property lines are emitted only when
`node['properties']` is truthy (non-empty). -/
def nodeLines (n : CtxNode) : String :=
  "- " ++ n.label ++ " (ID: " ++ n.id ++ ")\n" ++
  (if n.properties.isEmpty then "" else
    n.properties.foldl (fun acc kv => acc ++ "  " ++ kv.1 ++ ": " ++ kv.2 ++ "\n") "")

/-- Line 212: one relationship entry (`relationship_type` is always present
on the edges of `current_graph_context`, so `edge.get(...)` never takes its
default here). -/
def edgeLine (e : CtxEdge) : String :=
  "- " ++ e.source_id ++ " --[" ++ e.relationship_type ++ "]--> " ++ e.target_id ++ "\n"

/-- Lines 201-212: the serialized graph summary sent to the chat gateway.
Only the first 50 nodes and first 50 edges are listed (`[:50]` slices at
lines 204 and 211); the header uses the full counts. -/
def graphContextStr (g : GraphContext) : String :=
  headerLine g.nodes.length g.edges.length ++
  ("Nodes:\n" ++ (g.nodes.take 50).foldl (fun acc n => acc ++ nodeLines n) "" ++
   "\nRelationships:\n" ++ (g.edges.take 50).foldl (fun acc e => acc ++ edgeLine e) "")

/-! ## Concrete fixtures used by the witnesses -/

def ctxC1 : GraphContext :=
  ⟨[⟨"a", "A", []⟩, ⟨"b", "B", []⟩, ⟨"c", "C", []⟩], []⟩

def oracleC1 : StoreOracle :=
  ⟨true,
   fun x y =>
     if x == "a" && y == "b" then Except.ok (some ⟨["a", "b"], ["R"]⟩)
     else if x == "a" && y == "c" then Except.ok (some ⟨["a", "x", "c"], ["R", "S"]⟩)
     else Except.ok none,
   fun _ _ => Except.ok none⟩

/-- The two paths Tier 1 finds when run against `oracleC1`. -/
def psC1 : List PathRec := [⟨["a", "b"], ["R"]⟩, ⟨["a", "x", "c"], ["R", "S"]⟩]

def ctxC2 : GraphContext := ⟨[⟨"a", "A", []⟩, ⟨"b", "B", []⟩], []⟩

def oracleC2 : StoreOracle :=
  ⟨true, fun _ _ => Except.error (), fun _ _ => Except.ok none⟩

def rowsC3 : List String :=
  ["c1", "c2", "c3", "c4", "c5", "c6", "c7", "c8", "c9", "c10"]

def sgC3 : StoreGraph :=
  ⟨"a" :: rowsC3, rowsC3.map (fun c => (⟨"a", c, "T"⟩ : StoreEdge))⟩

def ctxC3 : GraphContext :=
  ⟨("a" :: rowsC3).map (fun i => (⟨i, "L", []⟩ : CtxNode)), []⟩

def oracleC3 : StoreOracle :=
  ⟨true, fun _ _ => Except.ok none,
   fun _ _ => Except.ok (some (cypherNeighbors rowsC3 "a"))⟩

def ctxC4 : GraphContext := ⟨[⟨"a", "A", []⟩], []⟩

def oracleC4 : StoreOracle :=
  ⟨true, fun _ _ => Except.ok none, fun _ _ => Except.ok none⟩

def ctxC5 : GraphContext := ⟨[⟨"n1", "N", []⟩], []⟩

def oracleC5 : StoreOracle :=
  ⟨true, fun _ _ => Except.ok none, fun _ _ => Except.ok none⟩

def ctxC6 : GraphContext := ⟨[⟨"a", "A", []⟩, ⟨"b", "B", []⟩], []⟩

def oracleC6 : StoreOracle :=
  ⟨false, fun _ _ => Except.ok none, fun _ _ => Except.ok none⟩

def oracleC9 : ExtractOracle :=
  ⟨Except.ok ⟨[⟨"a", "A", []⟩], []⟩, Except.ok (), true, Except.error ()⟩

def nodeA : CtxNode := ⟨"a", "A", []⟩

def nodeB : CtxNode := ⟨"b", "B", []⟩

/-! ## Lemmas: stable descending sort and first-maximum selection -/

theorem insertDesc_ne_nil (p : PathRec) (l : List PathRec) : insertDesc p l ≠ [] := by
  cases l with
  | nil => simp [insertDesc]
  | cons q qs =>
    simp only [insertDesc]
    split <;> simp

theorem sortDesc_eq_nil_iff (l : List PathRec) : sortDesc l = [] ↔ l = [] := by
  cases l with
  | nil => simp [sortDesc]
  | cons p ps => simpa [sortDesc] using insertDesc_ne_nil p (sortDesc ps)

theorem firstMax_cons_isSome (p : PathRec) (ps : List PathRec) :
    (firstMax (p :: ps)).isSome = true := by
  simp only [firstMax]
  cases hm : firstMax ps with
  | none => rfl
  | some q =>
    simp only []
    split <;> rfl

theorem firstMax_eq_none_iff (l : List PathRec) : firstMax l = none ↔ l = [] := by
  cases l with
  | nil => simp [firstMax]
  | cons p ps =>
    constructor
    · intro hn
      have h := firstMax_cons_isSome p ps
      rw [hn] at h
      simp at h
    · intro hc
      exact absurd hc (List.cons_ne_nil p ps)

theorem head?_sortDesc (l : List PathRec) : (sortDesc l).head? = firstMax l := by
  induction l with
  | nil => rfl
  | cons p ps ih =>
    simp only [sortDesc, firstMax]
    cases hs : sortDesc ps with
    | nil =>
      have hps : ps = [] := (sortDesc_eq_nil_iff ps).mp hs
      subst hps
      simp [insertDesc, firstMax]
    | cons q qs =>
      rw [hs] at ih
      simp only [List.head?] at ih
      rw [← ih]
      simp only [insertDesc]
      split <;> simp

theorem firstMax_le (l : List PathRec) (p : PathRec) (h : firstMax l = some p) :
    ∀ q ∈ l, q.nodes.length ≤ p.nodes.length := by
  induction l generalizing p with
  | nil => simp [firstMax] at h
  | cons a as ih =>
    simp only [firstMax] at h
    cases hm : firstMax as with
    | none =>
      rw [hm] at h
      simp only [Option.some.injEq] at h
      subst h
      have has : as = [] := (firstMax_eq_none_iff as).mp hm
      subst has
      simp
    | some q =>
      rw [hm] at h
      simp only at h
      intro r hr
      rcases List.mem_cons.mp hr with hra | hras
      · subst hra
        split at h <;> injection h with h <;> cases h <;> omega
      · have hq := ih q hm r hras
        split at h <;> injection h with h <;> cases h <;> omega

theorem firstMax_decomp (l : List PathRec) (p : PathRec) (h : firstMax l = some p) :
    ∃ pre suf, l = pre ++ p :: suf ∧ ∀ q ∈ pre, q.nodes.length < p.nodes.length := by
  induction l generalizing p with
  | nil => simp [firstMax] at h
  | cons a as ih =>
    simp only [firstMax] at h
    cases hm : firstMax as with
    | none =>
      rw [hm] at h
      simp only [Option.some.injEq] at h
      subst h
      exact ⟨[], as, rfl, by simp⟩
    | some q =>
      rw [hm] at h
      simp only at h
      split at h
      · next hlt =>
        injection h with h
        rw [← h]
        obtain ⟨pre, suf, heq, hpre⟩ := ih q hm
        refine ⟨a :: pre, suf, by rw [heq]; rfl, ?_⟩
        intro r hr
        rcases List.mem_cons.mp hr with hra | hrp
        · subst hra; exact hlt
        · exact hpre r hrp
      · next hlt =>
        injection h with h
        rw [← h]
        exact ⟨[], as, rfl, by simp⟩

theorem find?_first_of_pred {α : Type} (xs ys : List α) (f : α → Bool) (x : α)
    (h1 : ∀ z ∈ xs, f z = false) (h2 : f x = true) :
    (xs ++ x :: ys).find? f = some x := by
  induction xs with
  | nil => simp [List.find?_cons, h2]
  | cons a as ih =>
    have ha := h1 a (by simp)
    simp only [List.cons_append, List.find?_cons, ha]
    exact ih (fun z hz => h1 z (by simp [hz]))

theorem firstMax_eq_find? (l : List PathRec) :
    firstMax l = l.find? (fun p => l.all (fun q => q.nodes.length ≤ p.nodes.length)) := by
  cases hm : firstMax l with
  | none =>
    have hl : l = [] := (firstMax_eq_none_iff l).mp hm
    subst hl
    rfl
  | some p =>
    have hle := firstMax_le l p hm
    obtain ⟨pre, suf, heq, hpre⟩ := firstMax_decomp l p hm
    subst heq
    refine (find?_first_of_pred pre suf _ p ?_ ?_).symm
    · intro z hz
      have hzp := hpre z hz
      apply eq_false_of_ne_true
      simp only [List.all_eq_true, decide_eq_true_eq]
      intro hall
      have := hall p (by simp)
      omega
    · simp only [List.all_eq_true, decide_eq_true_eq]
      intro q hq
      exact hle q hq

/-! ## Lemmas: reduction of the path-finder to its search core -/

theorem extract_path_eq_pathSearch (o : StoreOracle) (node_ids : List String)
    (g : GraphContext) (v0 v1 : String) (vs : List String)
    (hv : node_ids.filter (fun nid => g.nodes.any (fun n => n.id == nid)) = v0 :: v1 :: vs) :
    extract_path_from_nodes o node_ids g = pathSearch o v0 v1 vs := by
  have hnids : node_ids.isEmpty = false := by
    cases node_ids with
    | nil => simp at hv
    | cons a l => rfl
  have hnodes : g.nodes.isEmpty = false := by
    cases hg : g.nodes with
    | nil => rw [hg] at hv; simp at hv
    | cons a l => rfl
  simp only [extract_path_from_nodes, hnodes, hnids, Bool.or_self, Bool.false_eq_true,
    if_false, hv]

theorem runTier1_all_none (o : StoreOracle) (prs : List (String × String))
    (h : ∀ pr ∈ prs, o.shortestPathQ pr.1 pr.2 = Except.ok none) :
    runTier1 o prs = (Except.ok [], prs.length) := by
  induction prs with
  | nil => rfl
  | cons pr rest ih =>
    obtain ⟨a, b⟩ := pr
    have h1 := h (a, b) (by simp)
    simp only [runTier1, h1]
    rw [ih (fun q hq => h q (by simp [hq]))]
    simp

/-- Claim C1: when Tier 1 completes without a store exception and finds at
least one pairwise shortest path, the path-finder returns a
`{nodes, relationships}` result, namely the earliest-found path whose node
count is greater than or equal to that of every path found. -/
theorem tier1_returns_longest_earliest_path
    (o : StoreOracle) (node_ids : List String) (g : GraphContext)
    (v0 v1 : String) (vs : List String) (ps : List PathRec)
    (hv : node_ids.filter (fun nid => g.nodes.any (fun n => n.id == nid)) = v0 :: v1 :: vs)
    (hconn : o.verifyConnection = true)
    (ht : (runTier1 o (orderedPairs (v0 :: v1 :: vs))).1 = Except.ok ps)
    (hne : ps ≠ []) :
    ∃ p, ps.find? (fun p => ps.all (fun q => q.nodes.length ≤ p.nodes.length)) = some p ∧
      (extract_path_from_nodes o node_ids g).1 =
        some (PathResult.withRels p.nodes p.relationships) := by
  rw [extract_path_eq_pathSearch o node_ids g v0 v1 vs hv]
  rcases hrt : runTier1 o (orderedPairs (v0 :: v1 :: vs)) with ⟨r, n⟩
  rw [hrt] at ht
  simp only at ht
  subst ht
  have hpe : ps.isEmpty = false := by
    cases ps with
    | nil => exact absurd rfl hne
    | cons a l => rfl
  cases hs : sortDesc ps with
  | nil => exact absurd ((sortDesc_eq_nil_iff ps).mp hs) hne
  | cons p rest =>
    refine ⟨p, ?_, ?_⟩
    · rw [← firstMax_eq_find?, ← head?_sortDesc, hs]
      rfl
    · simp only [pathSearch, hconn, hrt, hpe, hs, Bool.not_true, Bool.false_eq_true,
        if_false, Bool.not_false, Bool.true_eq_false]
      rfl

/-- Witness for C1 at a concrete oracle: Tier 1 finds a 2-node and a
3-node path; the 3-node path is returned. -/
theorem tier1_returns_longest_earliest_path_witness :
    ∃ p, psC1.find? (fun p => psC1.all (fun q => q.nodes.length ≤ p.nodes.length)) = some p ∧
      (extract_path_from_nodes oracleC1 ["a", "b", "c"] ctxC1).1 =
        some (PathResult.withRels p.nodes p.relationships) :=
  tier1_returns_longest_earliest_path oracleC1 ["a", "b", "c"] ctxC1 "a" "b" ["c"] psC1
    rfl rfl rfl (by decide)

/-- Claim C2: a store exception during the Tier-1 queries, or during the
Tier-2 query after Tier 1 found nothing, is caught and the path-finder
returns the fallback `{nodes: first five valid ids}` instead of raising
(the embedding is a total function: no exception value occurs in its
result type, so nothing can propagate). -/
theorem store_exception_degrades_to_fallback
    (o : StoreOracle) (node_ids : List String) (g : GraphContext)
    (v0 v1 : String) (vs : List String)
    (hv : node_ids.filter (fun nid => g.nodes.any (fun n => n.id == nid)) = v0 :: v1 :: vs)
    (hconn : o.verifyConnection = true)
    (hexc : (∃ e, (runTier1 o (orderedPairs (v0 :: v1 :: vs))).1 = Except.error e) ∨
      ((runTier1 o (orderedPairs (v0 :: v1 :: vs))).1 = Except.ok [] ∧
        ∃ e, o.neighborsQ v0 (v1 :: vs) = Except.error e)) :
    (extract_path_from_nodes o node_ids g).1 =
      some (PathResult.nodesOnly ((v0 :: v1 :: vs).take 5)) := by
  rw [extract_path_eq_pathSearch o node_ids g v0 v1 vs hv]
  rcases hrt : runTier1 o (orderedPairs (v0 :: v1 :: vs)) with ⟨r, n⟩
  rcases hexc with ⟨e, he⟩ | ⟨hok, e, he⟩
  · rw [hrt] at he
    simp only at he
    subst he
    simp [pathSearch, hconn, hrt]
  · rw [hrt] at hok
    simp only at hok
    subst hok
    simp [pathSearch, hconn, hrt, he]

/-- Witness for C2: the single Tier-1 query raises; the caller gets the
first-five fallback. -/
theorem store_exception_degrades_to_fallback_witness :
    (extract_path_from_nodes oracleC2 ["a", "b"] ctxC2).1 =
      some (PathResult.nodesOnly (["a", "b"].take 5)) :=
  store_exception_degrades_to_fallback oracleC2 ["a", "b"] ctxC2 "a" "b" [] rfl rfl
    (Or.inl ⟨(), rfl⟩)

theorem cypherNeighbors_ne_nil (rows : List String) (anchor : String) :
    cypherNeighbors rows anchor ≠ [] := by
  intro h
  have hl := congrArg List.length h
  simp only [cypherNeighbors, List.length_take, List.length_append, List.length_cons,
    List.length_nil] at hl
  omega

theorem cypherNeighbors_length_le (rows : List String) (anchor : String) :
    (cypherNeighbors rows anchor).length ≤ 10 := by
  simp only [cypherNeighbors, List.length_take]
  omega

theorem mem_distinctAux (l : List String) (seen : List String) (x : String)
    (h : x ∈ distinctAux l seen) : x ∈ l := by
  induction l generalizing seen with
  | nil => simp [distinctAux] at h
  | cons a as ih =>
    simp only [distinctAux] at h
    split at h
    · exact List.mem_cons_of_mem a (ih seen h)
    · rcases List.mem_cons.mp h with h1 | h2
      · subst h1; exact List.mem_cons_self x as
      · exact List.mem_cons_of_mem a (ih _ h2)

/-- Claim C3: with at least two valid ids and Tier 1 finding no path, the
path-finder runs the Tier-2 query: the candidate ids (the valid ids after
the anchor `v0`) reachable from the anchor within 1-2 undirected hops,
deduplicated in store row order, with the anchor appended, truncated to
the first 10, are returned as `{nodes: thatList}`.  The returned list has
at most 10 ids, and every returned id is the anchor or a reachable
candidate.  The anchor's survival of the truncation is not guaranteed
(the witness exhibits a run in which it is cut off). -/
theorem tier2_neighborhood_fallback_truncates_to_ten
    (o : StoreOracle) (node_ids : List String) (g : GraphContext) (sg : StoreGraph)
    (v0 v1 : String) (vs : List String) (rows : List String)
    (hv : node_ids.filter (fun nid => g.nodes.any (fun n => n.id == nid)) = v0 :: v1 :: vs)
    (hconn : o.verifyConnection = true)
    (ht : ∀ pr ∈ orderedPairs (v0 :: v1 :: vs), o.shortestPathQ pr.1 pr.2 = Except.ok none)
    (hrows : Tier2Rows sg v0 (v1 :: vs) rows)
    (hq : o.neighborsQ v0 (v1 :: vs) = Except.ok (some (cypherNeighbors rows v0))) :
    (extract_path_from_nodes o node_ids g).1 =
      some (PathResult.nodesOnly (cypherNeighbors rows v0)) ∧
      (cypherNeighbors rows v0).length ≤ 10 ∧
      (∀ c ∈ cypherNeighbors rows v0,
        c = v0 ∨ (c ∈ v1 :: vs ∧ reach12 sg v0 c = true)) := by
  refine ⟨?_, cypherNeighbors_length_le rows v0, ?_⟩
  · rw [extract_path_eq_pathSearch o node_ids g v0 v1 vs hv]
    have hrt := runTier1_all_none o (orderedPairs (v0 :: v1 :: vs)) ht
    have hne : (cypherNeighbors rows v0).isEmpty = false := by
      cases hcn : cypherNeighbors rows v0 with
      | nil => exact absurd hcn (cypherNeighbors_ne_nil rows v0)
      | cons a l => rfl
    simp [pathSearch, hconn, hrt, hq, hne]
  · intro c hc
    have hc2 := List.mem_of_mem_take hc
    rcases List.mem_append.mp hc2 with hd | ha
    · have hr : c ∈ rows := mem_distinctAux rows [] c hd
      exact Or.inr (hrows.1 c hr)
    · simp only [List.mem_singleton] at ha
      exact Or.inl ha

/-- Witness for C3: all ten candidates are reachable from the anchor in
one hop, so after deduplication, appending the anchor and truncating to
10 the anchor itself is cut off and does not survive. -/
theorem tier2_neighborhood_fallback_truncates_to_ten_witness :
    ((extract_path_from_nodes oracleC3 ("a" :: rowsC3) ctxC3).1 =
        some (PathResult.nodesOnly (cypherNeighbors rowsC3 "a")) ∧
      (cypherNeighbors rowsC3 "a").length ≤ 10 ∧
      (∀ c ∈ cypherNeighbors rowsC3 "a",
        c = "a" ∨ (c ∈ "c1" :: ["c2", "c3", "c4", "c5", "c6", "c7", "c8", "c9", "c10"] ∧
          reach12 sgC3 "a" c = true))) ∧
      "a" ∉ cypherNeighbors rowsC3 "a" :=
  ⟨tier2_neighborhood_fallback_truncates_to_ten oracleC3 ("a" :: rowsC3) ctxC3 sgC3
      "a" "c1" ["c2", "c3", "c4", "c5", "c6", "c7", "c8", "c9", "c10"] rowsC3 rfl rfl
      (fun _ _ => rfl) (by unfold Tier2Rows; exact ⟨by decide, by decide⟩) rfl,
   by decide⟩

/-- Claim C4: an empty relevant-id list, or one none of whose ids occurs
among the graph context's node ids, makes the path-finder return `None`. -/
theorem no_valid_ids_returns_null (o : StoreOracle) (node_ids : List String)
    (g : GraphContext)
    (h : node_ids = [] ∨ ∀ nid ∈ node_ids, ∀ n ∈ g.nodes, n.id ≠ nid) :
    (extract_path_from_nodes o node_ids g).1 = none := by
  rcases h with h | h
  · subst h
    simp [extract_path_from_nodes]
  · have hf : node_ids.filter (fun nid => g.nodes.any (fun n => n.id == nid)) = [] := by
      rw [List.filter_eq_nil_iff]
      intro nid hnid
      simp only [List.any_eq_true, beq_iff_eq, not_exists, not_and]
      intro n hn
      exact h nid hnid n hn
    have hpair : extract_path_from_nodes o node_ids g = (none, 0) := by
      unfold extract_path_from_nodes
      rw [hf]
      split <;> rfl
    rw [hpair]

/-- Witness for C4: an id absent from the context yields `None`. -/
theorem no_valid_ids_returns_null_witness :
    (extract_path_from_nodes oracleC4 ["z"] ctxC4).1 = none :=
  no_valid_ids_returns_null oracleC4 ["z"] ctxC4 (Or.inr (by decide))

/-- Claim C5: when exactly one relevant id survives the validity filter,
the path-finder returns `{nodes: [thatId]}` having issued zero store
queries (second component), for every store oracle, hence independently of
store state and reachability. -/
theorem single_valid_id_short_circuits (o : StoreOracle) (node_ids : List String)
    (g : GraphContext) (nid : String)
    (hv : node_ids.filter (fun x => g.nodes.any (fun n => n.id == x)) = [nid]) :
    extract_path_from_nodes o node_ids g = (some (PathResult.nodesOnly [nid]), 0) := by
  have hnids : node_ids.isEmpty = false := by
    cases node_ids with
    | nil => simp at hv
    | cons a l => rfl
  have hnodes : g.nodes.isEmpty = false := by
    cases hg : g.nodes with
    | nil => rw [hg] at hv; simp at hv
    | cons a l => rfl
  simp [extract_path_from_nodes, hnodes, hnids, hv]

/-- Witness for C5: one of the two relevant ids is known; the result is
that single id with zero store queries. -/
theorem single_valid_id_short_circuits_witness :
    extract_path_from_nodes oracleC5 ["n1", "zz"] ctxC5 =
      (some (PathResult.nodesOnly ["n1"]), 0) :=
  single_valid_id_short_circuits oracleC5 ["n1", "zz"] ctxC5 "n1" rfl

/-- Claim C6: with at least two valid ids and the connectivity probe
reporting the store unreachable, the path-finder returns the first five
valid ids and raises no error (the embedding is total). -/
theorem unreachable_store_returns_first_five (o : StoreOracle) (node_ids : List String)
    (g : GraphContext) (v0 v1 : String) (vs : List String)
    (hv : node_ids.filter (fun x => g.nodes.any (fun n => n.id == x)) = v0 :: v1 :: vs)
    (hconn : o.verifyConnection = false) :
    (extract_path_from_nodes o node_ids g).1 =
      some (PathResult.nodesOnly ((v0 :: v1 :: vs).take 5)) := by
  rw [extract_path_eq_pathSearch o node_ids g v0 v1 vs hv]
  simp [pathSearch, hconn]

/-- Witness for C6: the probe fails; the two valid ids come back as the
degraded result. -/
theorem unreachable_store_returns_first_five_witness :
    (extract_path_from_nodes oracleC6 ["a", "b"] ctxC6).1 =
      some (PathResult.nodesOnly (["a", "b"].take 5)) :=
  unreachable_store_returns_first_five oracleC6 ["a", "b"] ctxC6 "a" "b" [] rfl rfl

/-- Claim C9: if the LLM extraction succeeded, a persistence failure
(loader-construction exception, failed connection probe, or upload
exception) is swallowed and the extracted graph response is returned to
the caller unchanged. -/
theorem extract_returns_graph_despite_persist_failure
    (o : ExtractOracle) (g : GraphContext) (h : o.llmResult = Except.ok g) :
    extractEndpoint o = Except.ok g := by
  unfold extractEndpoint
  rw [h]
  cases persistAttempt o <;> rfl

/-- Witness for C9: the upload raises, yet the extracted graph comes back. -/
theorem extract_returns_graph_despite_persist_failure_witness :
    extractEndpoint oracleC9 = Except.ok ⟨[⟨"a", "A", []⟩], []⟩ :=
  extract_returns_graph_despite_persist_failure oracleC9 ⟨[⟨"a", "A", []⟩], []⟩ rfl

/-- Claim C10: the serialized chat context depends on the node list only
through its first 50 entries and its length, and likewise for the edge
list (entries beyond the 50th are omitted from the listing), while the
string opens with the header reporting the full counts. -/
theorem chat_summary_truncates_at_fifty
    (ns1 ns2 : List CtxNode) (es1 es2 : List CtxEdge)
    (hn : ns1.take 50 = ns2.take 50) (hnl : ns1.length = ns2.length)
    (he : es1.take 50 = es2.take 50) (hel : es1.length = es2.length) :
    graphContextStr ⟨ns1, es1⟩ = graphContextStr ⟨ns2, es2⟩ ∧
      ∃ rest, graphContextStr ⟨ns1, es1⟩ = headerLine ns1.length es1.length ++ rest := by
  constructor
  · simp only [graphContextStr]
    rw [hn, hnl, he, hel]
  · exact ⟨_, rfl⟩

/-- Witness for C10: 51 copies of one node serialize identically to 50
copies followed by a different 51st node. -/
theorem chat_summary_truncates_at_fifty_witness :
    graphContextStr ⟨List.replicate 51 nodeA, []⟩ =
        graphContextStr ⟨List.replicate 50 nodeA ++ [nodeB], []⟩ ∧
      ∃ rest, graphContextStr ⟨List.replicate 51 nodeA, []⟩ =
        headerLine (List.replicate 51 nodeA).length
          (List.length ([] : List CtxEdge)) ++ rest :=
  chat_summary_truncates_at_fifty (List.replicate 51 nodeA)
    (List.replicate 50 nodeA ++ [nodeB]) [] [] (by decide) (by decide) rfl rfl

/-! ## Lemmas: sanitization -/

theorem toNat_charOfNat_of_lt (n : Nat) (h : n < 55296) : (Char.ofNat n).toNat = n := by
  have hv : Nat.isValidChar n := Or.inl h
  simp only [Char.ofNat, hv, dite_true, Char.ofNatAux, Char.toNat]
  show (UInt32.ofNat' n _).toNat = n
  simp [UInt32.ofNat', UInt32.toNat]

theorem isSafeUpper_sub (d : Char) (h : isLowerAlpha d = false) :
    isSafeUpper (substituteNonWord d) = true := by
  by_cases hw : isWordChar d = true
  · rw [substituteNonWord, if_pos hw]
    simp only [isWordChar, Bool.or_eq_true] at hw
    rcases hw with ((hu | hlo) | hd2) | hun
    · simp [isSafeUpper, hu]
    · rw [h] at hlo
      exact absurd hlo (by decide)
    · simp [isSafeUpper, hd2]
    · simp [isSafeUpper, hun]
  · rw [substituteNonWord, if_neg hw]
    decide

theorem sub_fix (c : Char) (h : isSafeUpper c = true) : substituteNonWord c = c := by
  have hw : isWordChar c = true := by
    simp only [isSafeUpper, Bool.or_eq_true] at h
    simp only [isWordChar, Bool.or_eq_true]
    tauto
  rw [substituteNonWord, if_pos hw]

theorem map_sub_fix (l : List Char) (h : ∀ c ∈ l, isSafeUpper c = true) :
    l.map substituteNonWord = l := by
  induction l with
  | nil => rfl
  | cons a as ih =>
    simp only [List.map_cons, List.cons.injEq]
    exact ⟨sub_fix a (h a (by simp)), ih (fun c hc => h c (by simp [hc]))⟩

theorem pyUpper_fix (u : Char → List Char) (hu : IsUpperMap u) (l : List Char)
    (h : ∀ c ∈ l, isSafeUpper c = true) : pyUpper u l = l := by
  induction l with
  | nil => rfl
  | cons a as ih =>
    show u a ++ pyUpper u as = a :: as
    rw [hu.fixes_safe a (h a (by simp)), ih (fun c hc => h c (by simp [hc]))]
    rfl

theorem mem_pyUpper_not_lower (u : Char → List Char) (hu : IsUpperMap u)
    (l : List Char) (d : Char) (h : d ∈ pyUpper u l) : isLowerAlpha d = false := by
  unfold pyUpper at h
  rw [List.mem_flatMap] at h
  obtain ⟨e, _, hde⟩ := h
  exact hu.no_lower e d hde

theorem upperMapDemo_isUpperMap : IsUpperMap upperMapDemo := by
  constructor
  · intro c hc
    have hranges : ((65 ≤ c.toNat ∧ c.toNat ≤ 90) ∨ (48 ≤ c.toNat ∧ c.toNat ≤ 57)) ∨
        c = '_' := by
      simpa [isSafeUpper, isUpperAlpha, isDigitChar, Bool.or_eq_true, Bool.and_eq_true,
        decide_eq_true_eq, beq_iff_eq] using hc
    have hnl : isLowerAlpha c = false := by
      apply eq_false_of_ne_true
      intro hl
      have hr : 97 ≤ c.toNat ∧ c.toNat ≤ 122 := by
        simpa [isLowerAlpha, Bool.and_eq_true, decide_eq_true_eq] using hl
      rcases hranges with (h | h) | h
      · omega
      · omega
      · subst h
        exact absurd hr (by decide)
    have hne1 : c ≠ 'ß' := by
      intro he
      subst he
      revert hranges
      decide
    have hne2 : c ≠ 'ſ' := by
      intro he
      subst he
      revert hranges
      decide
    have hne3 : c ≠ 'ı' := by
      intro he
      subst he
      revert hranges
      decide
    unfold upperMapDemo
    rw [if_neg (by simp [hnl]), if_neg hne1, if_neg hne2, if_neg hne3]
  · intro c d hd
    unfold upperMapDemo at hd
    by_cases hl : isLowerAlpha c = true
    · rw [if_pos hl] at hd
      simp only [List.mem_singleton] at hd
      subst hd
      have hr : 97 ≤ c.toNat ∧ c.toNat ≤ 122 := by
        simpa [isLowerAlpha, Bool.and_eq_true, decide_eq_true_eq] using hl
      have ht := toNat_charOfNat_of_lt (c.toNat - 32) (by omega)
      apply eq_false_of_ne_true
      simp only [isLowerAlpha, ht, Bool.and_eq_true, decide_eq_true_eq]
      omega
    · rw [if_neg hl] at hd
      by_cases h1 : c = 'ß'
      · rw [if_pos h1] at hd
        simp only [List.mem_cons, List.not_mem_nil, or_false, List.mem_singleton] at hd
        rcases hd with h | h <;> (subst h; decide)
      · rw [if_neg h1] at hd
        by_cases h2 : c = 'ſ'
        · rw [if_pos h2] at hd
          simp only [List.mem_singleton] at hd
          subst hd
          decide
        · rw [if_neg h2] at hd
          by_cases h3 : c = 'ı'
          · rw [if_pos h3] at hd
            simp only [List.mem_singleton] at hd
            subst hd
            decide
          · rw [if_neg h3] at hd
            simp only [List.mem_singleton] at hd
            subst hd
            exact eq_false_of_ne_true hl

theorem mem_collapse (l : List Char) (c : Char) (h : c ∈ collapseUnderscores l) :
    c ∈ l := by
  induction l with
  | nil => simp [collapseUnderscores] at h
  | cons a as ih =>
    cases as with
    | nil => simpa [collapseUnderscores] using h
    | cons b bs =>
      simp only [collapseUnderscores] at h
      split at h
      · exact List.mem_cons_of_mem a (ih h)
      · rcases List.mem_cons.mp h with h1 | h2
        · subst h1; exact List.mem_cons_self c (b :: bs)
        · exact List.mem_cons_of_mem a (ih h2)

theorem collapse_cons (c : Char) (l : List Char) :
    ∃ t, collapseUnderscores (c :: l) = c :: t := by
  induction l generalizing c with
  | nil => exact ⟨[], rfl⟩
  | cons b bs ih =>
    simp only [collapseUnderscores]
    split
    · next hcond =>
      have hcb : c = '_' ∧ b = '_' := by
        simpa [Bool.and_eq_true, beq_iff_eq] using hcond
      obtain ⟨t, ht⟩ := ih b
      rw [ht]
      exact ⟨t, by rw [hcb.1, hcb.2]⟩
    · exact ⟨collapseUnderscores (b :: bs), rfl⟩

theorem chain_collapse (l : List Char) :
    List.Chain' noDouble (collapseUnderscores l) := by
  induction l with
  | nil => simp [collapseUnderscores]
  | cons a as ih =>
    cases as with
    | nil => simp [collapseUnderscores]
    | cons b bs =>
      simp only [collapseUnderscores]
      split
      · exact ih
      · next hcond =>
        obtain ⟨t, ht⟩ := collapse_cons b bs
        rw [ht]
        rw [ht] at ih
        refine List.chain'_cons.mpr ⟨?_, ih⟩
        unfold noDouble
        intro hab
        simp [hab.1, hab.2] at hcond

theorem collapse_fix (l : List Char) (h : List.Chain' noDouble l) :
    collapseUnderscores l = l := by
  induction l with
  | nil => rfl
  | cons a as ih =>
    cases as with
    | nil => rfl
    | cons b bs =>
      obtain ⟨hab, hrest⟩ := List.chain'_cons.mp h
      simp only [collapseUnderscores]
      rw [if_neg (by simp only [Bool.and_eq_true, beq_iff_eq]; unfold noDouble at hab; tauto)]
      rw [ih hrest]

theorem head?_dropWhile_not (p : Char → Bool) (l : List Char) (c : Char)
    (h : (l.dropWhile p).head? = some c) : p c = false := by
  induction l with
  | nil => simp at h
  | cons a as ih =>
    rw [List.dropWhile_cons] at h
    split at h
    · exact ih h
    · next hpa =>
      simp only [List.head?_cons, Option.some.injEq] at h
      subst h
      exact eq_false_of_ne_true hpa

theorem dropWhile_eq_self_of_head (p : Char → Bool) (l : List Char)
    (h : ∀ c, l.head? = some c → p c = false) : l.dropWhile p = l := by
  cases l with
  | nil => rfl
  | cons a as =>
    rw [List.dropWhile_cons, h a rfl]
    simp

theorem getLast?_dropWhile (p : Char → Bool) (l : List Char)
    (h : l.dropWhile p ≠ []) : (l.dropWhile p).getLast? = l.getLast? := by
  obtain ⟨pre, hpre⟩ := List.dropWhile_suffix (l := l) p
  conv_rhs => rw [← hpre]
  exact (List.getLast?_append_of_ne_nil pre h).symm

theorem strip_head_ne (l : List Char) (c : Char)
    (h : (stripUnderscores l).head? = some c) : c ≠ '_' := by
  unfold stripUnderscores at h
  rw [List.head?_reverse] at h
  have hne : ((l.dropWhile (fun c => c == '_')).reverse.dropWhile (fun c => c == '_')) ≠ [] := by
    intro hnil
    rw [hnil] at h
    simp at h
  rw [getLast?_dropWhile _ _ hne, List.getLast?_reverse] at h
  have hp := head?_dropWhile_not _ _ _ h
  intro hc
  subst hc
  simp at hp

theorem strip_last_ne (l : List Char) (c : Char)
    (h : (stripUnderscores l).getLast? = some c) : c ≠ '_' := by
  unfold stripUnderscores at h
  rw [List.getLast?_reverse] at h
  have hp := head?_dropWhile_not _ _ _ h
  intro hc
  subst hc
  simp at hp

theorem chain_flip_of_chain (l : List Char) (h : List.Chain' noDouble l) :
    List.Chain' (flip noDouble) l :=
  h.imp (fun a b hab => by unfold flip noDouble at *; tauto)

theorem strip_chain (l : List Char) (h : List.Chain' noDouble l) :
    List.Chain' noDouble (stripUnderscores l) := by
  unfold stripUnderscores
  have h1 : List.Chain' noDouble (l.dropWhile (fun c => c == '_')) :=
    h.suffix (List.dropWhile_suffix _)
  have h2 : List.Chain' noDouble ((l.dropWhile (fun c => c == '_')).reverse) :=
    List.chain'_reverse.mpr (chain_flip_of_chain _ h1)
  have h3 : List.Chain' noDouble
      (((l.dropWhile (fun c => c == '_')).reverse).dropWhile (fun c => c == '_')) :=
    h2.suffix (List.dropWhile_suffix _)
  exact List.chain'_reverse.mpr (chain_flip_of_chain _ h3)

theorem strip_mem (l : List Char) (c : Char) (h : c ∈ stripUnderscores l) : c ∈ l := by
  unfold stripUnderscores at h
  rw [List.mem_reverse] at h
  have h1 := (List.dropWhile_suffix _).subset h
  rw [List.mem_reverse] at h1
  exact (List.dropWhile_suffix _).subset h1

theorem strip_fix (l : List Char)
    (hh : ∀ c, l.head? = some c → c ≠ '_')
    (hl : ∀ c, l.getLast? = some c → c ≠ '_') :
    stripUnderscores l = l := by
  unfold stripUnderscores
  have h1 : l.dropWhile (fun c => c == '_') = l := by
    apply dropWhile_eq_self_of_head
    intro c hc
    have := hh c hc
    simp [this]
  rw [h1]
  have h2 : l.reverse.dropWhile (fun c => c == '_') = l.reverse := by
    apply dropWhile_eq_self_of_head
    intro c hc
    rw [List.head?_reverse] at hc
    have := hl c hc
    simp [this]
  rw [h2, List.reverse_reverse]

theorem noDoubledList_iff_chain (l : List Char) :
    noDoubledList l = true ↔ List.Chain' noDouble l := by
  induction l with
  | nil => simp [noDoubledList]
  | cons a as ih =>
    cases as with
    | nil => simp [noDoubledList]
    | cons b bs =>
      rw [List.chain'_cons, ← ih]
      simp only [noDoubledList, Bool.and_eq_true, Bool.not_eq_true', Bool.and_eq_false_iff,
        beq_eq_false_iff_ne, ne_eq]
      unfold noDouble
      constructor
      · rintro ⟨h1, h2⟩
        exact ⟨by tauto, h2⟩
      · rintro ⟨h1, h2⟩
        exact ⟨by tauto, h2⟩

theorem sanitizeCore_props (u : Char → List Char) (hu : IsUpperMap u) (s : String) :
    (∀ c ∈ (sanitizeCore u s).data, isSafeUpper c = true) ∧
    List.Chain' noDouble (sanitizeCore u s).data ∧
    (∀ c, (sanitizeCore u s).data.head? = some c → c ≠ '_') ∧
    (∀ c, (sanitizeCore u s).data.getLast? = some c → c ≠ '_') := by
  have hdata : (sanitizeCore u s).data =
      stripUnderscores (collapseUnderscores
        ((pyUpper u s.data).map substituteNonWord)) := rfl
  refine ⟨?_, ?_, ?_, ?_⟩
  · intro c hc
    rw [hdata] at hc
    have h1 := strip_mem _ c hc
    have h2 := mem_collapse _ c h1
    rw [List.mem_map] at h2
    obtain ⟨d, hd1, hd2⟩ := h2
    rw [← hd2]
    exact isSafeUpper_sub d (mem_pyUpper_not_lower u hu s.data d hd1)
  · rw [hdata]
    exact strip_chain _ (chain_collapse _)
  · rw [hdata]
    intro c hc
    exact strip_head_ne _ c hc
  · rw [hdata]
    intro c hc
    exact strip_last_ne _ c hc

/-- A string that already has the output shape — all characters in
`[A-Z0-9_]`, no doubled underscore, no leading or trailing underscore —
is a fixed point of the transform of lines 45-47. -/
theorem sanitize_good_fix (u : Char → List Char) (hu : IsUpperMap u) (t : String)
    (hsafe : ∀ c ∈ t.data, isSafeUpper c = true)
    (hchain : List.Chain' noDouble t.data)
    (hhead : ∀ c, t.data.head? = some c → c ≠ '_')
    (hlast : ∀ c, t.data.getLast? = some c → c ≠ '_') :
    sanitizeCore u t = t := by
  show String.mk (stripUnderscores (collapseUnderscores
    ((pyUpper u t.data).map substituteNonWord))) = t
  rw [pyUpper_fix u hu _ hsafe, map_sub_fix _ hsafe, collapse_fix _ hchain,
    strip_fix _ hhead hlast]

theorem sanitizeCore_fix (u : Char → List Char) (hu : IsUpperMap u) (s : String) :
    sanitizeCore u (sanitizeCore u s) = sanitizeCore u s := by
  obtain ⟨hsafe, hchain, hhead, hlast⟩ := sanitizeCore_props u hu s
  exact sanitize_good_fix u hu _ hsafe hchain hhead hlast

theorem sanitizeCore_relatedTo (u : Char → List Char) (hu : IsUpperMap u) :
    sanitizeCore u "RELATED_TO" = "RELATED_TO" := by
  apply sanitize_good_fix u hu
  · decide
  · exact (noDoubledList_iff_chain _).mp (by decide)
  · intro c h
    have hR : ("RELATED_TO" : String).data.head? = some 'R' := rfl
    rw [hR] at h
    injection h with h
    subst h
    decide
  · intro c h
    have hO : ("RELATED_TO" : String).data.getLast? = some 'O' := rfl
    rw [hO] at h
    injection h with h
    subst h
    decide

/-- Claim C7 (amended): for every uppercase table with the two Unicode
facts of `IsUpperMap` — the real table among them — and every input
string, the sanitization produces a non-empty identifier over `[A-Z0-9_]`
with no leading, trailing, or doubled underscore, and produces the
literal default `RELATED_TO` whenever the transform of lines 45-47 yields
the empty string.  (The claim's "exactly when" fails: an input whose
transform is itself the string `RELATED_TO` also produces it — see the
counterexample.) -/
theorem sanitize_output_shape (u : Char → List Char) (hu : IsUpperMap u) (s : String) :
    sanitizeRelType u s ≠ "" ∧
    (∀ c ∈ (sanitizeRelType u s).data, isSafeUpper c = true) ∧
    (∀ c, (sanitizeRelType u s).data.head? = some c → c ≠ '_') ∧
    (∀ c, (sanitizeRelType u s).data.getLast? = some c → c ≠ '_') ∧
    noDoubledList (sanitizeRelType u s).data = true ∧
    (sanitizeCore u s = "" → sanitizeRelType u s = "RELATED_TO") := by
  by_cases hc : sanitizeCore u s = ""
  · have hr : sanitizeRelType u s = "RELATED_TO" := by
      simp [sanitizeRelType, hc]
    rw [hr]
    refine ⟨by decide, by decide, ?_, ?_, by decide, fun _ => rfl⟩
    · intro c h
      have hR : ("RELATED_TO" : String).data.head? = some 'R' := rfl
      rw [hR] at h
      injection h with h
      subst h
      decide
    · intro c h
      have hO : ("RELATED_TO" : String).data.getLast? = some 'O' := rfl
      rw [hO] at h
      injection h with h
      subst h
      decide
  · have hr : sanitizeRelType u s = sanitizeCore u s := by
      simp [sanitizeRelType, hc]
    rw [hr]
    obtain ⟨hsafe, hchain, hhead, hlast⟩ := sanitizeCore_props u hu s
    exact ⟨hc, hsafe, hhead, hlast, (noDoubledList_iff_chain _).mpr hchain,
      fun hcc => absurd hcc hc⟩

/-- Counterexample to C7 as stated: at input `"related to"` the output is
the literal `RELATED_TO` although the transform is non-empty, so "produces
the literal default RELATED_TO exactly when the transform yields an empty
string" fails in the only-if direction.  `upperMapDemo` agrees with
Python's `str.upper` on every character of this input (ASCII letters and
space), so the evaluation is the program's. -/
theorem sanitize_default_iff_counterexample :
    sanitizeRelType upperMapDemo "related to" = "RELATED_TO" ∧
    sanitizeCore upperMapDemo "related to" ≠ "" := by
  exact ⟨by decide, by decide⟩

/-- Witness for C7 (amended) at the demo table and a concrete input; the
final conjunct checks the table's genuine multi-character case: U+00DF
sanitizes to `SS` exactly as the program does. -/
theorem sanitize_output_shape_witness :
    (sanitizeRelType upperMapDemo "a  b!" ≠ "" ∧
    (∀ c ∈ (sanitizeRelType upperMapDemo "a  b!").data, isSafeUpper c = true) ∧
    (∀ c, (sanitizeRelType upperMapDemo "a  b!").data.head? = some c → c ≠ '_') ∧
    (∀ c, (sanitizeRelType upperMapDemo "a  b!").data.getLast? = some c → c ≠ '_') ∧
    noDoubledList (sanitizeRelType upperMapDemo "a  b!").data = true ∧
    (sanitizeCore upperMapDemo "a  b!" = "" →
      sanitizeRelType upperMapDemo "a  b!" = "RELATED_TO")) ∧
    sanitizeRelType upperMapDemo "ß" = "SS" :=
  ⟨sanitize_output_shape upperMapDemo upperMapDemo_isUpperMap "a  b!", by decide⟩

/-- Claim C8: sanitization is idempotent — applying it to its own output
returns that output unchanged, default branch included — for every
uppercase table with the Unicode facts of `IsUpperMap`. -/
theorem sanitize_idempotent (u : Char → List Char) (hu : IsUpperMap u) (s : String) :
    sanitizeRelType u (sanitizeRelType u s) = sanitizeRelType u s := by
  by_cases hc : sanitizeCore u s = ""
  · have hr : sanitizeRelType u s = "RELATED_TO" := by
      simp [sanitizeRelType, hc]
    rw [hr]
    have hfixR := sanitizeCore_relatedTo u hu
    have hne : sanitizeCore u "RELATED_TO" ≠ "" := by
      rw [hfixR]
      decide
    simp [sanitizeRelType, hne, hfixR]
  · have hr : sanitizeRelType u s = sanitizeCore u s := by
      simp [sanitizeRelType, hc]
    rw [hr]
    have hfix := sanitizeCore_fix u hu s
    simp [sanitizeRelType, hfix, hc]

/-- Witness for C8 at the demo table and an input that exercises the
multi-character uppercase mapping. -/
theorem sanitize_idempotent_witness :
    sanitizeRelType upperMapDemo (sanitizeRelType upperMapDemo "ß & co") =
      sanitizeRelType upperMapDemo "ß & co" :=
  sanitize_idempotent upperMapDemo upperMapDemo_isUpperMap "ß & co"

end KGBlog
